import Mathlib

/-!
Verification of the binary-record decoding engine in cnvCP500EUCJP2UTF8.py.

The Python source is shallowly embedded: byte strings become `List Nat`
(each entry a byte value), Python `str` becomes `String`, Python `int`
becomes `Int`, fallible conversions return `Option`/`Except`, and the
per-file mutable error counter becomes an explicit `Nat` component of each
result.  The external single-byte EBCDIC codec (Python's cp500 codec) is a
parameter `codec : Nat → Option Char`; the code-conversion dictionary is an
association list looked up front-to-back (most recent binding first, like a
Python dict after repeated assignment).
-/

namespace CnvBin

/-- Characters removed by Python `str.strip()` (ASCII whitespace; further
Unicode space characters are not modelled — no claim involves them). -/
def isPySpace (c : Char) : Bool :=
  c == ' ' || c == '\t' || c == '\n' || c == '\r' || c == '\x0b' || c == '\x0c'

/-- Python `str.strip()` on a character list. -/
def pythonStripList (cs : List Char) : List Char :=
  ((cs.dropWhile isPySpace).reverse.dropWhile isPySpace).reverse

/-- Python `str.strip()`. -/
def pythonStrip (s : String) : String :=
  String.mk (pythonStripList s.toList)

/-- Python `str.upper()` (ASCII letters; the schema/mapping tokens involved
in the claims are ASCII). -/
def upperStr (s : String) : String :=
  String.mk (s.toList.map Char.toUpper)

/-- Python `str.lstrip('0')`. -/
def lstripZeros (s : String) : String :=
  String.mk (s.toList.dropWhile (· == '0'))

/-- `n` copies of the character `'0'`, as in Python `"0" * n`. -/
def zeroString (n : Nat) : String :=
  String.mk (List.replicate n '0')

/-- Value of a decimal digit list, most significant first. -/
def natOfDigits (ds : List Char) : Nat :=
  ds.foldl (fun acc c => acc * 10 + (c.toNat - 48)) 0

/-- Python `int(s)`: strips surrounding whitespace, optional sign, decimal
digits.  (Numeric-separator underscores are not modelled; no schema line in
the claims uses them.) -/
def pythonIntParse (s : String) : Option Int :=
  match pythonStripList s.toList with
  | '-' :: ds =>
      if !ds.isEmpty && ds.all Char.isDigit then some (-(natOfDigits ds : Int)) else none
  | '+' :: ds =>
      if !ds.isEmpty && ds.all Char.isDigit then some ((natOfDigits ds : Int)) else none
  | ds =>
      if !ds.isEmpty && ds.all Char.isDigit then some ((natOfDigits ds : Int)) else none

/-- Python `str.split(',')` on a character list. -/
def splitOnComma : List Char → List (List Char)
  | [] => [[]]
  | c :: rest =>
    match splitOnComma rest with
    | [] => [[]]
    | g :: gs => if c == ',' then [] :: g :: gs else (c :: g) :: gs

/-- `listStartsWith l pat` is Python `l.startswith(pat)` on character lists. -/
def listStartsWith : List Char → List Char → Bool
  | _, [] => true
  | [], _ :: _ => false
  | a :: as, b :: bs => a == b && listStartsWith as bs

/-- Python `s.startswith(pat)`. -/
def strStarts (s pat : String) : Bool :=
  listStartsWith s.toList pat.toList

/-- `hasInfix pat l` : `pat` occurs as a contiguous sublist of `l`
(Python `pat in l` for strings). -/
def hasInfix (pat : List Char) : List Char → Bool
  | [] => pat.isEmpty
  | c :: cs => listStartsWith (c :: cs) pat || hasInfix pat cs

/-- Python `pat in s` (substring test). -/
def strContains (s pat : String) : Bool :=
  hasInfix pat.toList s.toList

/-- Character for a decimal digit value (Python `str(d)` for `0 ≤ d ≤ 9`). -/
def digitChar (n : Nat) : Char :=
  Char.ofNat (48 + n)

/-- Lower-case hex digit, as produced by Python `bytes.hex()`. -/
def hexCharLower (n : Nat) : Char :=
  if n < 10 then Char.ofNat (48 + n) else Char.ofNat (87 + n)

/-- Upper-case hex digit. -/
def hexCharUpper (n : Nat) : Char :=
  if n < 10 then Char.ofNat (48 + n) else Char.ofNat (55 + n)

/-- Python `bytes.hex()`: two lower-case hex digits per byte. -/
def bytesHex (bs : List Nat) : String :=
  String.mk (bs.foldr (fun b acc => hexCharLower (b / 16 % 16) :: hexCharLower (b % 16) :: acc) [])

/-- Python `byte_pair.hex().upper()` for the two bytes of a double-byte
character, big-endian. -/
def pairHexUpper (a b : Nat) : String :=
  String.mk [hexCharUpper (a / 16 % 16), hexCharUpper (a % 16),
             hexCharUpper (b / 16 % 16), hexCharUpper (b % 16)]

/-! ## Packed decimal (COMP-3): `convert_comp3_bytes`, source lines 378-465 -/

/-- Both nibbles of each byte, validated to be decimal digits; `none` as soon
as one nibble is outside `0..9` (the loop over `comp3_bytes[:-1]`). -/
def pairNibbles : List Nat → Option (List Nat)
  | [] => some []
  | b :: rest =>
    let high_nibble := b / 16 % 16
    let low_nibble := b % 16
    if high_nibble ≤ 9 && low_nibble ≤ 9 then
      (pairNibbles rest).map (fun ds => high_nibble :: low_nibble :: ds)
    else none

/-- All digit nibbles of a packed field in order: both nibbles of every byte
but the last, then the high nibble of the last byte; `none` if any of them
is not a decimal digit. -/
def comp3DigitList (comp3_bytes : List Nat) : Option (List Nat) :=
  match pairNibbles comp3_bytes.dropLast with
  | none => none
  | some ds =>
    let last_byte_high_nibble := comp3_bytes.getLastD 0 / 16 % 16
    if last_byte_high_nibble ≤ 9 then some (ds ++ [last_byte_high_nibble]) else none

/-- `convert_comp3_bytes(comp3_bytes, decimal_places)`: decode a packed
decimal field.  `decimal_places < 0` means integer conversion (no decimal
point); the low nibble of the last byte is the sign nibble, `0xD` negative;
`none` on empty input or an invalid digit nibble. -/
def convert_comp3_bytes (comp3_bytes : List Nat) (decimal_places : Int) : Option String :=
  if comp3_bytes.isEmpty then none
  else
    let last_byte := comp3_bytes.getLastD 0
    let sign_nibble := last_byte % 16
    let is_negative := sign_nibble == 13
    match comp3DigitList comp3_bytes with
    | none => none
    | some digits =>
      let all_digits := (digits.map digitChar).dropWhile (· == '0')
      if all_digits.isEmpty then
        some (if decimal_places ≥ 0 ∧ decimal_places > 0 then
                "0." ++ zeroString decimal_places.toNat
              else "0")
      else
        let numeric_string : List Char :=
          if decimal_places ≥ 0 then
            if decimal_places = 0 then all_digits
            else if decimal_places ≥ (all_digits.length : Int) then
              '0' :: '.' :: (List.replicate (decimal_places.toNat - all_digits.length) '0' ++ all_digits)
            else
              let insert_position := all_digits.length - decimal_places.toNat
              all_digits.take insert_position ++ '.' :: all_digits.drop insert_position
          else all_digits
        some (String.mk (if is_negative then '-' :: numeric_string else numeric_string))

/-! ## Picture-format analyzer: `get_digits_from_pic_type`, source lines 229-256

The Python regex `^[PSV]*9(?:\((\d+)\))?(?:V9(?:\((\d+)\))?)?$` is embedded
as a deterministic recognizer.  Determinism is justified: `9` is not in the
class `[PSV]`, so the leading star is maximal without backtracking; and
whenever a parenthesized group is present but incomplete, the text left over
after skipping the optional group starts with a character that can match
neither `V9` nor the end anchor, so the whole regex fails — exactly what the
recognizer's `none` produces. -/

/-- Membership in the regex character class `[PSV]`. -/
def isPSV (c : Char) : Bool :=
  c == 'P' || c == 'S' || c == 'V'

/-- The optional group `(?:\((\d+)\))?`: either a complete parenthesized
digit run (returning its value) or nothing; `none` when a `(` is present but
the group cannot complete (which fails the whole regex, see above). -/
def parenCount : List Char → Option (Option Nat × List Char)
  | '(' :: rest =>
    let ds := rest.takeWhile Char.isDigit
    let r2 := rest.dropWhile Char.isDigit
    if ds.isEmpty then none
    else
      match r2 with
      | ')' :: r3 => some (some (natOfDigits ds), r3)
      | _ => none
  | cs => some (none, cs)

/-- Full match of the PIC regex, returning the two captured groups. -/
def picMatch (cs : List Char) : Option (Option Nat × Option Nat) :=
  match cs.dropWhile isPSV with
  | '9' :: r1 =>
    match parenCount r1 with
    | none => none
    | some (arg1, r2) =>
      match r2 with
      | [] => some (arg1, none)
      | 'V' :: '9' :: r3 =>
        match parenCount r3 with
        | none => none
        | some (arg2, r4) => if r4.isEmpty then some (arg1, arg2) else none
      | _ => none
  | _ => none

/-- `get_digits_from_pic_type(pic_type_str)`: integer and decimal digit
counts of a PIC token; `(0, 0)` when the token does not match the shape. -/
def get_digits_from_pic_type (pic_type_str : String) : Nat × Nat :=
  match picMatch pic_type_str.toList with
  | none => (0, 0)
  | some (arg1, arg2) =>
    let integer_digits := match arg1 with | some m => m | none => 0
    let decimal_digits :=
      match arg2 with
      | some n => if pic_type_str.toList.contains 'V' then n else 0
      | none => 0
    (integer_digits, decimal_digits)

/-! ## Single-byte text and zoned decimal, source lines 261-375 -/

/-- `convert_ebcdic_to_string(ebcdic_bytes)`: drop `0x00` bytes, decode each
remaining byte with the (external) single-byte codec discarding undecodable
bytes (`errors='ignore'`), and strip surrounding whitespace.  The Python
cp500 codec is the parameter `codec`. -/
def convert_ebcdic_to_string (codec : Nat → Option Char) (ebcdic_bytes : List Nat) : String :=
  pythonStrip (String.mk ((ebcdic_bytes.filter (fun b => b ≠ 0)).filterMap codec))

/-- The decimal-point insertion performed by `convert_ebcdic_zoned_decimal`
on the already-decoded digit string (source lines 350-375): empty input
yields `""`; a negative scale is clamped to `0`; scale `0` returns the
string unchanged; a string no longer than the scale gets `"0."` plus zero
padding; otherwise the point is inserted `decimal_digits` places from the
right. -/
def zonedScale (numeric_string : String) (decimal_digits : Int) : String :=
  if numeric_string = "" then ""
  else
    let dd := if decimal_digits < 0 then 0 else decimal_digits
    let actual_digits : Int := (numeric_string.toList.length : Int)
    if dd = 0 then numeric_string
    else if actual_digits ≤ dd then
      "0." ++ zeroString (dd - actual_digits).toNat ++ numeric_string
    else
      let insert_position := (actual_digits - dd).toNat
      String.mk (numeric_string.toList.take insert_position ++
                 '.' :: numeric_string.toList.drop insert_position)

/-- `convert_ebcdic_zoned_decimal(ebcdic_bytes, decimal_digits)`: decode as
text (the extra `.strip()` of line 347 is idempotent on the already stripped
decode), then insert the implied decimal point. -/
def convert_ebcdic_zoned_decimal (codec : Nat → Option Char) (ebcdic_bytes : List Nat)
    (decimal_digits : Int) : String :=
  zonedScale (pythonStrip (convert_ebcdic_to_string codec ebcdic_bytes)) decimal_digits

/-! ## Double-byte (JEF) text: `convert_jef_chars`, source lines 287-340 -/

/-- `UNDEFINED_CHAR_REPLACEMENT`, the placeholder glyph for undefined codes. -/
def UNDEFINED_CHAR_REPLACEMENT : String := "★"

/-- `jef_bytes.replace(b'\x42\x42', '　'.encode('euc_jp'))`: every
occurrence of the marker pair `0x42 0x42` becomes `0xA1 0xA1`, the EUC-JP
bytes of the full-width space (left to right, non-overlapping, as Python
`bytes.replace`). -/
def replaceAtMark : List Nat → List Nat
  | 66 :: 66 :: rest => 161 :: 161 :: replaceAtMark rest
  | b :: rest => b :: replaceAtMark rest
  | [] => []

/-- Python dict lookup `conversion_map.get(key)` on the association list
(most recent binding first). -/
def dictGet (conversion_map : List (String × String)) (key : String) : Option String :=
  (conversion_map.find? (fun p => p.1 == key)).map (fun p => p.2)

/-- Python `int(s, 16)` restricted to a bare hex-digit run, which is the
only form `load_conversion_map` ever stores (sign/whitespace/`0x` forms are
not modelled). -/
def pythonIntHex (s : String) : Option Nat :=
  let cs := s.toList
  let hexVal : Char → Nat := fun c =>
    if c.isDigit then c.toNat - 48
    else if 'a' ≤ c then c.toNat - 87 else c.toNat - 55
  if !cs.isEmpty && cs.all (fun c =>
      c.isDigit || ('a' ≤ c && c ≤ 'f') || ('A' ≤ c && c ≤ 'F')) then
    some (cs.foldl (fun acc c => acc * 16 + hexVal c) 0)
  else none

/-- One two-byte step of the JEF loop (source lines 311-333): look the pair
up by its upper-case hex; a missing or empty mapped value yields the
placeholder, a mapped value that is not a valid code point (`int`/`chr`
raising `ValueError`) yields the placeholder, otherwise the mapped code
point's character.  (Python `chr` additionally admits lone surrogates,
which Lean strings cannot hold; no claim touches that branch.) -/
def jefStep (conversion_map : List (String × String)) (a b : Nat) : String :=
  let hex_value := pairHexUpper a b
  match dictGet conversion_map hex_value with
  | some converted_hex =>
    if converted_hex ≠ "" then
      match pythonIntHex converted_hex with
      | some n => if n < 1114112 then String.mk [Char.ofNat n] else UNDEFINED_CHAR_REPLACEMENT
      | none => UNDEFINED_CHAR_REPLACEMENT
    else UNDEFINED_CHAR_REPLACEMENT
  | none => UNDEFINED_CHAR_REPLACEMENT

/-- The two-bytes-at-a-time loop of `convert_jef_chars`: an unpaired
trailing byte contributes one placeholder. -/
def jefLoop (conversion_map : List (String × String)) : List Nat → String
  | a :: b :: rest => jefStep conversion_map a b ++ jefLoop conversion_map rest
  | _ :: [] => UNDEFINED_CHAR_REPLACEMENT
  | [] => ""

/-- `convert_jef_chars(jef_bytes, conversion_map)`: marker replacement, the
pair loop, then `strip()`. -/
def convert_jef_chars (conversion_map : List (String × String)) (jef_bytes : List Nat) : String :=
  pythonStrip (jefLoop conversion_map (replaceAtMark jef_bytes))

/-! ## Code mapping table: `load_conversion_map`, source lines 82-115 -/

/-- `re.fullmatch(r'[0-9A-F]+', s)`: a non-empty run of upper-case hex
digits. -/
def isUpperHexStr (s : String) : Bool :=
  !s.toList.isEmpty && s.toList.all (fun c => c.isDigit || ('A' ≤ c && c ≤ 'F'))

/-- One line of the conversion-map file (the body of the `for line in f`
loop): strip; skip blank and `#` lines; split on the comma; with exactly two
parts, upper-case both stripped halves and store them when both are hex,
otherwise skip.  Storing prepends, so `dictGet` sees the latest binding
first, like Python dict assignment. -/
def processMapLine (conversion_map : List (String × String)) (line : String) :
    List (String × String) :=
  let l := pythonStrip line
  if l = "" then conversion_map
  else if strStarts l "#" then conversion_map
  else
    match (splitOnComma l.toList).map String.mk with
    | [p1, p2] =>
      let hex_src := upperStr (pythonStrip p1)
      let hex_dst := upperStr (pythonStrip p2)
      if isUpperHexStr hex_src && isUpperHexStr hex_dst then
        (hex_src, hex_dst) :: conversion_map
      else conversion_map
    | _ => conversion_map

/-- `load_conversion_map`: fold the per-line step over the file's lines,
starting from the empty table. -/
def load_conversion_map (lines : List String) : List (String × String) :=
  lines.foldl processMapLine []

/-! ## Schema parsing: `parse_cpy_field_definitions`, source lines 136-227 -/

/-- The distinct fatal outcomes of schema parsing; each constructor stands
for one `return None, None, msg` site of the source (`insufficientLines` for
line 150, `invalidRecordLength` for both record-length messages of lines
156/158, `fieldExceedsRecord` for line 198 with the field name, computed end
byte and record length that the message interpolates, `noFields` for line
225). -/
inductive SchemaError
  | insufficientLines
  | invalidRecordLength
  | fieldExceedsRecord (field_name : String) (end_byte : Int) (record_length : Int)
  | noFields
deriving DecidableEq

/-- One field definition as stored by the source (dictionary of lines
201-208): name, upper-cased type token, optional numeric attribute, byte
length, computed 0-based offset. -/
structure FieldDef where
  name : String
  type : String
  num_attribute : Option Int
  length : Nat
  offset : Nat
deriving DecidableEq

/-- Whether a numeric-attribute string satisfies Python `str.isdigit()`
(ASCII digits). -/
def isDigitStr (s : String) : Bool :=
  !s.toList.isEmpty && s.toList.all Char.isDigit

/-- Reading one field line (source lines 166-189): split on commas,
normalize a 4-part line whose third part is blank by inserting an empty
numeric-attribute slot, require exactly 5 parts, parse the numeric columns
(a failure skips the line, like the `ValueError` handler), require a
positive byte length.  Returns
`(name, type, numeric_attribute, byte_length, declared_offset)`; `none`
means the line is skipped with a warning. -/
def parseFieldLine (line : String) : Option (String × String × Option Int × Int × Int) :=
  let parts0 := (splitOnComma line.toList).map String.mk
  let parts :=
    if parts0.length = 4 ∧ pythonStrip (parts0.getD 2 "") = "" then
      parts0.take 2 ++ [""] ++ parts0.drop 2
    else parts0
  if parts.length = 5 then
    let field_name := pythonStrip (parts.getD 0 "")
    let data_type := upperStr (pythonStrip (parts.getD 1 ""))
    let num_attribute_str := pythonStrip (parts.getD 2 "")
    match pythonIntParse (parts.getD 3 ""), pythonIntParse (parts.getD 4 "") with
    | some byte_length, some declared_offset_1based =>
      if byte_length ≤ 0 then none
      else
        some (field_name, data_type,
              (if isDigitStr num_attribute_str then
                 pythonIntParse num_attribute_str
               else none),
              byte_length, declared_offset_1based)
    | _, _ => none
  else none

/-- The field-definition loop (source lines 165-217): skipped lines advance
nothing; an accepted line whose computed end exceeds the record length
aborts the whole schema; otherwise the field is appended with the computed
offset (the declared offset is only compared for a warning) and the running
offset advances. -/
def parseFields (record_length : Int) :
    List String → Nat → Except SchemaError (List FieldDef)
  | [], _ => .ok []
  | line :: rest, current_offset =>
    match parseFieldLine line with
    | none => parseFields record_length rest current_offset
    | some (field_name, data_type, num_attribute, byte_length, _declared) =>
      if (current_offset : Int) + byte_length > record_length then
        .error (.fieldExceedsRecord field_name ((current_offset : Int) + byte_length)
                  record_length)
      else
        match parseFields record_length rest (current_offset + byte_length.toNat) with
        | .error e => .error e
        | .ok defs =>
          .ok (⟨field_name, data_type, num_attribute, byte_length.toNat,
                current_offset⟩ :: defs)

/-- `parse_cpy_field_definitions(cpy_lines)`: fewer than 3 lines is fatal;
line 1 must be a positive integer record length; line 2 is ignored; field
lines start at line 3; zero accepted fields is fatal.  The final
computed-versus-declared total length comparison is only a warning and does
not affect the result. -/
def parse_cpy_field_definitions (cpy_lines : List String) :
    Except SchemaError (Int × List FieldDef) :=
  if cpy_lines.length < 3 then .error .insufficientLines
  else
    match pythonIntParse (cpy_lines.getD 0 "") with
    | none => .error .invalidRecordLength
    | some record_length =>
      if record_length ≤ 0 then .error .invalidRecordLength
      else
        match parseFields record_length (cpy_lines.drop 2) 0 with
        | .error e => .error e
        | .ok defs => if defs.isEmpty then .error .noFields else .ok (record_length, defs)

/-! ## Per-field conversion: `BinaryToDatConverter._convert_field`,
source lines 569-663

The method's `self.errors_encountered += 1` side effect is the second
component of the result: `1` on the three error-token paths, `0` otherwise. -/

/-- Return codes of `process` (source lines 11-15). -/
def PROCESS_SUCCESS : Int := 0

/-- General processing error return code. -/
def PROCESS_ERROR_GENERAL : Int := -4

/-- The tail of the packed-decimal branch (source lines 643-648): run
`convert_comp3_bytes` and turn `None` into the `COMP3_INVALID` error token
with one error counted. -/
def finishComp3 (field_data : List Nat) (decimal_places : Int) : String × Nat :=
  match convert_comp3_bytes field_data decimal_places with
  | none => ("ERROR(COMP3_INVALID):" ++ bytesHex field_data, 1)
  | some s => (s, 0)

/-- `_convert_field(field_def, field_data)` with the codec and conversion
map made explicit.  Dispatch order and conditions follow the source's
`if`/`elif` chain exactly. -/
def convertField (codec : Nat → Option Char) (conversion_map : List (String × String))
    (field_def : FieldDef) (field_data : List Nat) : String × Nat :=
  let data_type := field_def.type
  if data_type == "X" then
    (convert_ebcdic_to_string codec field_data, 0)
  else if data_type == "9" then
    let v := lstripZeros (convert_ebcdic_to_string codec field_data)
    (if v = "" then "0" else v, 0)
  else if data_type == "N" then
    (convert_jef_chars conversion_map field_data, 0)
  else if strStarts data_type "9" && strContains data_type "V9" then
    let decimal_digits := (get_digits_from_pic_type data_type).2
    (convert_ebcdic_zoned_decimal codec field_data (decimal_digits : Int), 0)
  else if strStarts data_type "V9" then
    let numeric_str := lstripZeros (convert_ebcdic_to_string codec field_data)
    (if numeric_str = "" then "0.0" else "0." ++ numeric_str, 0)
  else if (strStarts data_type "P9" || strStarts data_type "PS9"
           || strStarts data_type "S9" || strStarts data_type "SP9")
          || (data_type == "PV9" || data_type == "PSV9") then
    if strContains data_type "V9" || strStarts data_type "PV9"
        || strStarts data_type "PSV9" then
      if strStarts data_type "PV9" || strStarts data_type "PSV9" then
        match field_def.num_attribute with
        | none => ("ERROR(PV9/PSV9_NO_ATTR):" ++ bytesHex field_data, 1)
        | some num_attribute => finishComp3 field_data num_attribute
      else
        finishComp3 field_data ((get_digits_from_pic_type data_type).2 : Int)
    else
      finishComp3 field_data (-1)
  else
    ("UNSUPPORTED_TYPE(" ++ data_type ++ "):" ++ bytesHex field_data, 1)

/-! ## Record pipeline: `BinaryToDatConverter.process`, source lines 529-562 -/

/-- The per-record field loop (source lines 547-556, before CSV quoting):
slice each field's byte range out of the record and convert it, collecting
the values in order and summing the error increments.  The field converter
is a parameter so the pipeline theorems hold for any per-field decoder. -/
def convertRecord (cf : FieldDef → List Nat → String × Nat)
    (field_definitions : List FieldDef) (record_bytes : List Nat) : List String × Nat :=
  field_definitions.foldl
    (fun acc field_def =>
      let r := cf field_def ((record_bytes.drop field_def.offset).take field_def.length)
      (acc.1 ++ [r.1], acc.2 + r.2))
    ([], 0)

/-- The record-reading loop of `process`: `bin_f.read(record_length)` is
`data.take record_length`; an empty read ends the file cleanly; a short
nonempty read counts one error and stops; a full record is converted and
the loop continues on the remaining bytes.  Result: the converted records
(field values per record) and the total error count. -/
def processLoop (cf : FieldDef → List Nat → String × Nat)
    (field_definitions : List FieldDef) (record_length : Nat) (data : List Nat) :
    List (List String) × Nat :=
  let record_bytes := data.take record_length
  if h1 : record_bytes.isEmpty then ([], 0)
  else if h2 : record_bytes.length ≠ record_length then ([], 1)
  else
    let rec1 := convertRecord cf field_definitions record_bytes
    let rest := processLoop cf field_definitions record_length (data.drop record_length)
    (rec1.1 :: rest.1, rec1.2 + rest.2)
termination_by data.length
decreasing_by
  simp only [List.length_drop]
  have hr : record_length ≠ 0 := by
    intro h
    apply h1
    simp [record_bytes, h]
  have hlen : record_bytes.length = min record_length data.length := by
    simp [record_bytes]
  omega

/-- The file-level status of `process` (source line 562): success only with
a zero error count. -/
def processStatus (errors : Nat) : Int :=
  if errors = 0 then PROCESS_SUCCESS else PROCESS_ERROR_GENERAL

/-- The first `k` record-sized chunks of a byte stream, used to state what
the record loop produces before a truncated tail. -/
def leadingChunks (record_length : Nat) : Nat → List Nat → List (List Nat)
  | 0, _ => []
  | k + 1, data =>
    data.take record_length :: leadingChunks record_length k (data.drop record_length)

/-- The cp500 codec restricted to the EBCDIC digit bytes `0xF0`-`0xF9`
(which cp500 maps to `'0'`-`'9'`): a concrete instance of the external
single-byte codec parameter, used for concrete scenarios. -/
def digitCodec : Nat → Option Char := fun b =>
  if 240 ≤ b && b ≤ 249 then some (Char.ofNat (48 + b - 240)) else none

/-! ## Helper lemmas -/

theorem listStartsWith_nil_cons (b : Char) (bs : List Char) :
    listStartsWith [] (b :: bs) = false := rfl

theorem pairNibbles_mem_le {bs : List Nat} {ds : List Nat}
    (h : pairNibbles bs = some ds) : ∀ d ∈ ds, d ≤ 9 := by
  induction bs generalizing ds with
  | nil =>
    rw [show pairNibbles [] = some [] from rfl, Option.some_inj] at h
    subst h
    intro d hd
    cases hd
  | cons b rest ih =>
    rw [show pairNibbles (b :: rest) =
          (if b / 16 % 16 ≤ 9 && b % 16 ≤ 9 then
            (pairNibbles rest).map (fun ds => b / 16 % 16 :: b % 16 :: ds)
          else none) from rfl] at h
    by_cases hle : (b / 16 % 16 ≤ 9 && b % 16 ≤ 9) = true
    · rw [if_pos hle] at h
      cases hrest : pairNibbles rest with
      | none => rw [hrest] at h; cases h
      | some ds0 =>
        rw [hrest] at h
        simp only [Option.map_some', Option.some_inj] at h
        subst h
        intro d hd
        simp only [List.mem_cons] at hd
        simp only [Bool.and_eq_true, decide_eq_true_eq] at hle
        rcases hd with h1 | h1 | h1
        · omega
        · omega
        · exact ih hrest d h1
    · rw [if_neg hle] at h
      cases h

theorem comp3DigitList_mem_le {bs ds : List Nat}
    (h : comp3DigitList bs = some ds) : ∀ d ∈ ds, d ≤ 9 := by
  unfold comp3DigitList at h
  cases hp : pairNibbles bs.dropLast with
  | none => rw [hp] at h; cases h
  | some ds0 =>
    rw [hp] at h
    replace h : (if bs.getLastD 0 / 16 % 16 ≤ 9 then
        some (ds0 ++ [bs.getLastD 0 / 16 % 16]) else none) = some ds := h
    by_cases hle : bs.getLastD 0 / 16 % 16 ≤ 9
    · rw [if_pos hle] at h
      simp only [Option.some_inj] at h
      subst h
      intro d hd
      simp only [List.mem_append, List.mem_singleton] at hd
      rcases hd with h1 | h1
      · exact pairNibbles_mem_le hp d h1
      · omega
    · rw [if_neg hle] at h
      cases h

theorem digitChar_eq_zero_iff {d : Nat} (hd : d ≤ 9) :
    (digitChar d == '0') = true ↔ d = 0 := by
  interval_cases d <;> simp [digitChar]

theorem allDigits_empty_iff {ds : List Nat} (hle : ∀ d ∈ ds, d ≤ 9) :
    ((ds.map digitChar).dropWhile (· == '0')).isEmpty = true ↔ ∀ d ∈ ds, d = 0 := by
  rw [List.isEmpty_iff, List.dropWhile_eq_nil_iff]
  constructor
  · intro h d hd
    exact (digitChar_eq_zero_iff (hle d hd)).1 (h (digitChar d) (List.mem_map_of_mem _ hd))
  · intro h c hc
    rcases List.mem_map.1 hc with ⟨d, hd, rfl⟩
    exact (digitChar_eq_zero_iff (hle d hd)).2 (h d hd)

theorem takeWhile_all_append {p : Char → Bool} :
    ∀ (l : List Char) (b : Char) (r : List Char), (∀ c ∈ l, p c = true) → p b = false →
      (l ++ b :: r).takeWhile p = l := by
  intro l
  induction l with
  | nil =>
    intro b r _ hb
    simp [List.takeWhile, hb]
  | cons a as ih =>
    intro b r hl hb
    have ha : p a = true := hl a (List.mem_cons_self a as)
    simp only [List.cons_append, List.takeWhile, ha, List.append_eq]
    rw [ih b r (fun c hc => hl c (List.mem_cons_of_mem a hc)) hb]

theorem dropWhile_all_append {p : Char → Bool} :
    ∀ (l : List Char) (b : Char) (r : List Char), (∀ c ∈ l, p c = true) → p b = false →
      (l ++ b :: r).dropWhile p = b :: r := by
  intro l
  induction l with
  | nil =>
    intro b r _ hb
    simp [List.dropWhile, hb]
  | cons a as ih =>
    intro b r hl hb
    have ha : p a = true := hl a (List.mem_cons_self a as)
    simp only [List.cons_append, List.dropWhile, ha]
    exact ih b r (fun c hc => hl c (List.mem_cons_of_mem a hc)) hb

theorem convertRecord_eq (cf : FieldDef → List Nat → String × Nat)
    (field_definitions : List FieldDef) (record_bytes : List Nat) :
    convertRecord cf field_definitions record_bytes =
      (field_definitions.map
         (fun fd => (cf fd ((record_bytes.drop fd.offset).take fd.length)).1),
       (field_definitions.map
         (fun fd => (cf fd ((record_bytes.drop fd.offset).take fd.length)).2)).sum) := by
  have key : ∀ (fs : List FieldDef) (a : List String) (n : Nat),
      fs.foldl
        (fun acc field_def =>
          let r := cf field_def ((record_bytes.drop field_def.offset).take field_def.length)
          (acc.1 ++ [r.1], acc.2 + r.2)) (a, n) =
      (a ++ fs.map (fun fd => (cf fd ((record_bytes.drop fd.offset).take fd.length)).1),
       n + (fs.map (fun fd => (cf fd ((record_bytes.drop fd.offset).take fd.length)).2)).sum) := by
    intro fs
    induction fs with
    | nil => intro a n; simp
    | cons fd rest ih =>
      intro a n
      simp only [List.foldl_cons, List.map_cons, List.sum_cons, ih]
      simp only [Prod.mk.injEq]
      refine ⟨by simp, by omega⟩
  have h0 := key field_definitions [] 0
  simpa [convertRecord] using h0

theorem processLoop_eof (cf : FieldDef → List Nat → String × Nat)
    (field_definitions : List FieldDef) (record_length : Nat) (data : List Nat)
    (h : data.take record_length = []) :
    processLoop cf field_definitions record_length data = ([], 0) := by
  rw [processLoop]
  simp [h]

theorem processLoop_short (cf : FieldDef → List Nat → String × Nat)
    (field_definitions : List FieldDef) (record_length : Nat) (data : List Nat)
    (hne : data ≠ []) (hrl : 0 < record_length) (hlen : data.length < record_length) :
    processLoop cf field_definitions record_length data = ([], 1) := by
  rw [processLoop]
  have h1 : (data.take record_length).isEmpty = false := by
    rw [List.isEmpty_eq_false_iff_exists_mem]
    rcases List.exists_mem_of_ne_nil data hne with ⟨x, hx⟩
    exact ⟨x, by rw [List.take_of_length_le (le_of_lt hlen)]; exact hx⟩
  have h2 : (data.take record_length).length ≠ record_length := by
    rw [List.length_take]
    omega
  simp [h1, h2]
  omega

theorem processLoop_step (cf : FieldDef → List Nat → String × Nat)
    (field_definitions : List FieldDef) (record_length : Nat) (data : List Nat)
    (hrl : 0 < record_length) (hlen : record_length ≤ data.length) :
    processLoop cf field_definitions record_length data =
      ((convertRecord cf field_definitions (data.take record_length)).1 ::
         (processLoop cf field_definitions record_length (data.drop record_length)).1,
       (convertRecord cf field_definitions (data.take record_length)).2 +
         (processLoop cf field_definitions record_length (data.drop record_length)).2) := by
  rw [processLoop]
  have h1 : (data.take record_length).isEmpty = false := by
    rw [List.isEmpty_eq_false_iff_exists_mem]
    have : data ≠ [] := by
      intro h
      rw [h] at hlen
      simp at hlen
      omega
    rcases List.exists_mem_of_ne_nil data this with ⟨x, hx⟩
    exact ⟨data.headD x, by
      cases data with
      | nil => simp at hlen; omega
      | cons a as =>
        cases record_length with
        | zero => omega
        | succ n => simp⟩
  have h2 : (data.take record_length).length = record_length := by
    rw [List.length_take]
    omega
  simp [h1, h2]

theorem parseFieldLine_pos {line : String} {nm ty : String} {na : Option Int}
    {bl dec : Int} (h : parseFieldLine line = some (nm, ty, na, bl, dec)) : 0 < bl := by
  simp only [parseFieldLine] at h
  repeat' split at h
  all_goals first
    | exact (Option.noConfusion h)
    | (simp only [Option.some_inj, Prod.mk.injEq] at h
       obtain ⟨h1, h2, h3, h4, h5⟩ := h
       omega)

theorem parseFields_ok_sum (record_length : Int) :
    ∀ (ls : List String) (off : Nat) (defs : List FieldDef),
      (off : Int) ≤ record_length →
      parseFields record_length ls off = .ok defs →
      (off : Int) + (defs.map (fun d => (d.length : Int))).sum ≤ record_length := by
  intro ls
  induction ls with
  | nil =>
    intro off defs hoff h
    have h0 : (Except.ok [] : Except SchemaError (List FieldDef)) = .ok defs := h
    simp only [Except.ok.injEq] at h0
    subst h0
    simpa using hoff
  | cons line rest ih =>
    intro off defs hoff h
    unfold parseFields at h
    split at h
    · exact ih off defs hoff h
    · rename_i nm ty na bl dec heq
      split at h
      · cases h
      · rename_i hnotex
        split at h
        · cases h
        · rename_i ds hds
          simp only [Except.ok.injEq] at h
          subst h
          have hbl : 0 < bl := parseFieldLine_pos heq
          have hcast : ((off + bl.toNat : Nat) : Int) = (off : Int) + bl := by
            push_cast
            rw [Int.toNat_of_nonneg (by omega)]
          have hoff2 : ((off + bl.toNat : Nat) : Int) ≤ record_length := by
            rw [hcast]
            omega
          have IH := ih (off + bl.toNat) ds hoff2 hds
          rw [hcast] at IH
          simp only [List.map_cons, List.sum_cons] at IH ⊢
          have : ((bl.toNat : Nat) : Int) = bl := Int.toNat_of_nonneg (by omega)
          omega

theorem processMapLine_mem {m : List (String × String)} {line : String} {k v : String}
    (h : (k, v) ∈ processMapLine m line) :
    (k, v) ∈ m ∨ (isUpperHexStr k = true ∧ isUpperHexStr v = true) := by
  simp only [processMapLine] at h
  split at h
  · exact Or.inl h
  · split at h
    · exact Or.inl h
    · split at h
      · rename_i p1 p2 heq
        split at h
        · rename_i hhex
          rcases List.mem_cons.1 h with h1 | h1
          · simp only [Prod.mk.injEq] at h1
            obtain ⟨hk, hv⟩ := h1
            subst hk
            subst hv
            simp only [Bool.and_eq_true] at hhex
            exact Or.inr hhex
          · exact Or.inl h1
        · exact Or.inl h
      · exact Or.inl h

theorem load_foldl_mem {k v : String} :
    ∀ (lines : List String) (m : List (String × String)),
      (k, v) ∈ lines.foldl processMapLine m →
      (k, v) ∈ m ∨ (isUpperHexStr k = true ∧ isUpperHexStr v = true) := by
  intro lines
  induction lines with
  | nil => intro m h; exact Or.inl h
  | cons line rest ih =>
    intro m h
    rcases ih (processMapLine m line) h with h1 | h1
    · exact processMapLine_mem h1
    · exact Or.inr h1

/-! ## Claims -/

/-- C9: schema parsing of fewer than 3 lines fails with the
insufficient-lines error before the record-length line is examined — the
first line is never parsed as a number. -/
theorem insufficient_lines_error (cpy_lines : List String) (h : cpy_lines.length < 3) :
    parse_cpy_field_definitions cpy_lines = .error .insufficientLines := by
  unfold parse_cpy_field_definitions
  rw [if_pos h]

theorem insufficient_lines_error_witness :
    parse_cpy_field_definitions ["5", "ignored"] = .error .insufficientLines :=
  insufficient_lines_error ["5", "ignored"] (by decide)

/-- C7: in the double-byte decode loop, a byte pair whose big-endian
upper-case hex key is absent from the conversion map contributes exactly the
one-character placeholder glyph, and an unpaired trailing byte contributes
one placeholder as well; `convert_jef_chars` is this loop composed with the
marker replacement and a final strip. -/
theorem jef_unmapped_placeholder (conversion_map : List (String × String)) (a b : Nat)
    (rest : List Nat) (h : dictGet conversion_map (pairHexUpper a b) = none) :
    jefLoop conversion_map (a :: b :: rest) =
      UNDEFINED_CHAR_REPLACEMENT ++ jefLoop conversion_map rest
    ∧ UNDEFINED_CHAR_REPLACEMENT.length = 1
    ∧ (∀ c : Nat, jefLoop conversion_map [c] = UNDEFINED_CHAR_REPLACEMENT)
    ∧ (∀ bytes : List Nat, convert_jef_chars conversion_map bytes =
        pythonStrip (jefLoop conversion_map (replaceAtMark bytes))) := by
  refine ⟨?_, rfl, fun c => rfl, fun bytes => rfl⟩
  have hloop : jefLoop conversion_map (a :: b :: rest) =
      jefStep conversion_map a b ++ jefLoop conversion_map rest := rfl
  have hstep : jefStep conversion_map a b = UNDEFINED_CHAR_REPLACEMENT := by
    simp only [jefStep]
    rw [h]
  rw [hloop, hstep]

theorem jef_unmapped_placeholder_witness :
    jefLoop [] [64, 65] = UNDEFINED_CHAR_REPLACEMENT ++ jefLoop [] [] :=
  (jef_unmapped_placeholder [] 64 65 [] rfl).1

/-- C2 counterexample: the field `AMT,PS9(5)V9(2),,4,1` on bytes
`0x12 0x34 0x56 0x7C` decodes to `"12345.67"` (four bytes carry seven digit
nibbles plus the sign nibble), not to `"1234.56"` as the claim states. -/
theorem packed_scenario_counterexample :
    convertField digitCodec [] ⟨"AMT", "PS9(5)V9(2)", none, 4, 0⟩ [18, 52, 86, 124] =
      ("12345.67", 0)
    ∧ ("12345.67" : String) ≠ "1234.56" :=
  ⟨rfl, by decide⟩

/-- C2 (amended): the field `AMT,PS9(5)V9(2),,4,1` on bytes
`0x12 0x34 0x56 0x7C` decodes, for any codec, conversion map, and numeric
attribute, to `"12345.67"` with no error: the sign nibble `0xC` is treated
as positive, and the scale 2 is taken from the PIC token by the
picture-format analyzer (which reads `PS9(5)V9(2)` as 5 integer and
2 decimal digits). -/
theorem packed_scenario_decodes (codec : Nat → Option Char)
    (conversion_map : List (String × String)) (num_attribute : Option Int) :
    convertField codec conversion_map ⟨"AMT", "PS9(5)V9(2)", num_attribute, 4, 0⟩
        [18, 52, 86, 124] = ("12345.67", 0)
    ∧ get_digits_from_pic_type "PS9(5)V9(2)" = (5, 2) :=
  ⟨rfl, rfl⟩

/-- C4 counterexample: schema parsing of an empty line list fails (with the
insufficient-lines error) although no accepted field's computed end exceeds
the record length — there are no field lines at all — so failure is not
equivalent to the presence of an overflowing field. -/
theorem schema_parse_fail_counterexample :
    parse_cpy_field_definitions ([] : List String) = .error .insufficientLines := rfl

/-- C4 (amended): for every schema that parses successfully the sum of the
accepted fields' byte lengths does not exceed the record length, and any
accepted field line whose computed end exceeds the record length aborts
parsing for the whole schema with the field-exceeds-record error (parsing
may also fail for insufficient lines, an invalid record length, or zero
accepted fields). -/
theorem schema_length_bound :
    (∀ (cpy_lines : List String) (record_length : Int) (defs : List FieldDef),
       parse_cpy_field_definitions cpy_lines = .ok (record_length, defs) →
       (defs.map (fun d => (d.length : Int))).sum ≤ record_length)
    ∧ (∀ (record_length : Int) (line : String) (rest : List String) (off : Nat)
         (nm ty : String) (na : Option Int) (bl dec : Int),
         parseFieldLine line = some (nm, ty, na, bl, dec) →
         (off : Int) + bl > record_length →
         parseFields record_length (line :: rest) off =
           .error (.fieldExceedsRecord nm ((off : Int) + bl) record_length)) := by
  constructor
  · intro cpy_lines record_length defs h
    unfold parse_cpy_field_definitions at h
    split at h
    · cases h
    · split at h
      · cases h
      · rename_i rl hparse
        split at h
        · cases h
        · rename_i hpos
          split at h
          · cases h
          · rename_i ds hds
            split at h
            · cases h
            · simp only [Except.ok.injEq, Prod.mk.injEq] at h
              obtain ⟨h1, h2⟩ := h
              have hs := parseFields_ok_sum rl (cpy_lines.drop 2) 0 ds (by omega) hds
              rw [← h1, ← h2]
              simpa using hs
  · intro record_length line rest off nm ty na bl dec hline hex
    simp only [parseFields, hline]
    rw [if_pos hex]

theorem schema_length_bound_witness :
    (([⟨"A", "X", none, 5, 0⟩, ⟨"B", "X", none, 5, 5⟩] : List FieldDef).map
        (fun d => (d.length : Int))).sum ≤ 10
    ∧ parseFields 10 ["B,X,,6,6"] 5 = .error (.fieldExceedsRecord "B" 11 10) := by
  constructor
  · exact schema_length_bound.1 ["10", "hdr", "A,X,,5,1", "B,X,,5,6"] 10
      [⟨"A", "X", none, 5, 0⟩, ⟨"B", "X", none, 5, 5⟩] rfl
  · have h := schema_length_bound.2 10 "B,X,,6,6" [] 5 "B" "X" none 6 6 rfl (by decide)
    simpa using h

/-- C8 counterexample: the mapping loader stores the pair from the line
`"AB,CD"` although its key `"AB"` has length 2, not 4 — key length is not
validated, only that key and value are non-empty runs of upper-case hex
digits. -/
theorem conversion_map_key_counterexample :
    load_conversion_map ["AB,CD"] = [("AB", "CD")]
    ∧ ("AB" : String).length ≠ 4 :=
  ⟨rfl, by decide⟩

/-- C8 (amended): every key and value stored by the mapping loader is a
non-empty run of upper-case hex digits (the length is not constrained to 4),
and lines that are blank, start with `#`, do not split into exactly two
comma-separated parts, or fail the hex validation are not stored. -/
theorem conversion_map_invariant :
    (∀ (lines : List String) (k v : String), (k, v) ∈ load_conversion_map lines →
       isUpperHexStr k = true ∧ isUpperHexStr v = true)
    ∧ (∀ (m : List (String × String)) (line : String), pythonStrip line = "" →
         processMapLine m line = m)
    ∧ (∀ (m : List (String × String)) (line : String),
         strStarts (pythonStrip line) "#" = true → processMapLine m line = m)
    ∧ (∀ (m : List (String × String)) (line : String),
         (splitOnComma (pythonStrip line).toList).length ≠ 2 →
         processMapLine m line = m)
    ∧ (∀ (m : List (String × String)) (line : String) (p1 p2 : String),
         (splitOnComma (pythonStrip line).toList).map String.mk = [p1, p2] →
         (isUpperHexStr (upperStr (pythonStrip p1)) &&
          isUpperHexStr (upperStr (pythonStrip p2))) = false →
         processMapLine m line = m) := by
  refine ⟨?_, ?_, ?_, ?_, ?_⟩
  · intro lines k v h
    rcases load_foldl_mem lines [] h with h1 | h1
    · cases h1
    · exact h1
  · intro m line h
    unfold processMapLine
    rw [if_pos h]
  · intro m line h
    unfold processMapLine
    by_cases h0 : pythonStrip line = ""
    · rw [if_pos h0]
    · rw [if_neg h0, if_pos h]
  · intro m line h
    unfold processMapLine
    by_cases h0 : pythonStrip line = ""
    · rw [if_pos h0]
    · rw [if_neg h0]
      by_cases h1 : strStarts (pythonStrip line) "#" = true
      · rw [if_pos h1]
      · rw [if_neg h1]
        split
        · rename_i p1 p2 heq
          exfalso
          apply h
          have := congrArg List.length heq
          simpa using this
        · rfl
  · intro m line p1 p2 heq hbad
    unfold processMapLine
    by_cases h0 : pythonStrip line = ""
    · rw [if_pos h0]
    · rw [if_neg h0]
      by_cases h1 : strStarts (pythonStrip line) "#" = true
      · rw [if_pos h1]
      · rw [if_neg h1]
        split
        · rename_i q1 q2 heq2
          rw [heq] at heq2
          simp only [List.cons.injEq, and_true] at heq2
          obtain ⟨e1, e2⟩ := heq2
          subst e1
          subst e2
          rw [if_neg (by simp [hbad])]
        · rfl

theorem conversion_map_invariant_witness :
    (isUpperHexStr "41" = true ∧ isUpperHexStr "42" = true)
    ∧ processMapLine [] "# comment" = [] :=
  ⟨conversion_map_invariant.1 ["41,42"] "41" "42" (by decide),
   conversion_map_invariant.2.2.1 [] "# comment" (by decide)⟩

/-- C1 counterexample: the one-byte field `0x0D` passes digit-nibble
validation (its only digit nibble is `0`) and carries the negative sign
nibble `0xD`, yet decodes to `"0"`, which does not begin with `"-"`: the
zero case returns before the sign is prepended. -/
theorem comp3_negative_zero_counterexample :
    convert_comp3_bytes [13] (-1) = some "0"
    ∧ 13 % 16 = 13
    ∧ comp3DigitList [13] = some [0]
    ∧ ("0" : String).toList.head? ≠ some '-' :=
  ⟨rfl, rfl, rfl, by decide⟩

/-- C1 (amended): for a packed field whose bytes pass digit-nibble
validation and whose sign nibble is `0xD`, the decoded string begins with
`"-"` whenever some digit nibble is non-zero; when every digit nibble is
zero the zero rule returns `"0"` (or `"0."` followed by `scale` zero
digits) without any sign. -/
theorem comp3_negative_sign (comp3_bytes : List Nat) (decimal_places : Int)
    (ds : List Nat) (hds : comp3DigitList comp3_bytes = some ds)
    (hne : comp3_bytes ≠ [])
    (hsign : comp3_bytes.getLastD 0 % 16 = 13) :
    ((∃ d ∈ ds, d ≠ 0) →
       ∃ cs : List Char, convert_comp3_bytes comp3_bytes decimal_places =
         some (String.mk ('-' :: cs)))
    ∧ ((∀ d ∈ ds, d = 0) →
       convert_comp3_bytes comp3_bytes decimal_places =
         some (if decimal_places ≥ 0 ∧ decimal_places > 0 then
                 "0." ++ zeroString decimal_places.toNat
               else "0")) := by
  have hle := comp3DigitList_mem_le hds
  have hempty : comp3_bytes.isEmpty = false := by
    rw [List.isEmpty_eq_false]
    exact hne
  have hneg : (comp3_bytes.getLastD 0 % 16 == 13) = true := by
    rw [hsign]
    rfl
  constructor
  · intro hexist
    have hnz : ((ds.map digitChar).dropWhile (· == '0')).isEmpty = false := by
      by_contra hc
      rw [Bool.not_eq_false] at hc
      have hall := (allDigits_empty_iff hle).1 hc
      rcases hexist with ⟨d, hd, hdnz⟩
      exact hdnz (hall d hd)
    simp only [convert_comp3_bytes, hds, hempty, hnz, hneg]
    exact ⟨_, rfl⟩
  · intro hall
    have hz : ((ds.map digitChar).dropWhile (· == '0')).isEmpty = true :=
      (allDigits_empty_iff hle).2 hall
    simp only [convert_comp3_bytes, hds, hempty, hz]
    simp

theorem comp3_negative_sign_witness :
    ∃ cs : List Char, convert_comp3_bytes [29] (-1) = some (String.mk ('-' :: cs)) :=
  (comp3_negative_sign [29] (-1) [1] rfl (by decide) (by decide)).1
    ⟨1, by decide, by decide⟩

/-- C3 counterexample: `9(3)V9(0)` is a `9(m)V9(n)` token with
`decimal_digits = 0`; on the digit string `"123"` the code returns `"123"`
unchanged (the `decimal_digits == 0` early return), not `"123."` as the
claim's unconditional insertion at position `length - decimal_digits`
would produce. -/
theorem zoned_scale_zero_counterexample :
    get_digits_from_pic_type "9(3)V9(0)" = (3, 0)
    ∧ convertField digitCodec [] ⟨"F", "9(3)V9(0)", none, 3, 0⟩ [241, 242, 243] =
        ("123", 0)
    ∧ ("123" : String) ≠ "123." :=
  ⟨rfl, rfl, by decide⟩

/-- C3 (amended): zoned-decimal scale insertion on the decoded digit
string: an empty string yields `""` for every scale; scale `0` returns the
string unchanged (no decimal point); for a positive scale at least the
string's length, the result is `"0."` plus zero padding plus the string;
for a positive scale smaller than the length, a decimal point is inserted
at position `length - scale`; in particular `"123"` with scale 5 gives
`"0.00123"` and `"12345"` with scale 2 gives `"123.45"`. -/
theorem zoned_scale_insertion :
    (∀ (codec : Nat → Option Char) (ebcdic_bytes : List Nat) (decimal_digits : Int),
       convert_ebcdic_zoned_decimal codec ebcdic_bytes decimal_digits =
         zonedScale (pythonStrip (convert_ebcdic_to_string codec ebcdic_bytes))
           decimal_digits)
    ∧ (∀ decimal_digits : Int, zonedScale "" decimal_digits = "")
    ∧ (∀ s : String, zonedScale s 0 = if s = "" then "" else s)
    ∧ (∀ (s : String) (dd : Nat), s ≠ "" → 0 < dd → s.toList.length ≤ dd →
         zonedScale s (dd : Int) = "0." ++ zeroString (dd - s.toList.length) ++ s)
    ∧ (∀ (s : String) (dd : Nat), 0 < dd → dd < s.toList.length →
         zonedScale s (dd : Int) =
           String.mk (s.toList.take (s.toList.length - dd) ++
                      '.' :: s.toList.drop (s.toList.length - dd)))
    ∧ zonedScale "123" 5 = "0.00123"
    ∧ zonedScale "12345" 2 = "123.45" := by
  refine ⟨fun _ _ _ => rfl, ?_, ?_, ?_, ?_, rfl, rfl⟩
  · intro dd
    unfold zonedScale
    rw [if_pos rfl]
  · intro s
    by_cases h : s = ""
    · simp [zonedScale, h]
    · simp [zonedScale, h]
  · intro s dd hne h0 hlen
    unfold zonedScale
    rw [if_neg hne]
    have hc1 : ¬((dd : Int) < 0) := by omega
    rw [if_neg hc1]
    have hc2 : ¬((dd : Int) = 0) := by omega
    rw [if_neg hc2]
    have hc3 : ((s.toList.length : Int)) ≤ (dd : Int) := by exact_mod_cast hlen
    rw [if_pos hc3]
    have hc4 : ((dd : Int) - (s.toList.length : Int)).toNat = dd - s.toList.length := by
      omega
    rw [hc4]
  · intro s dd h0 hlen
    unfold zonedScale
    have hne : ¬(s = "") := by
      intro h
      subst h
      simp at hlen
    rw [if_neg hne]
    have hc1 : ¬((dd : Int) < 0) := by omega
    rw [if_neg hc1]
    have hc2 : ¬((dd : Int) = 0) := by omega
    rw [if_neg hc2]
    have hc3 : ¬((s.toList.length : Int) ≤ (dd : Int)) := by
      have : (dd : Int) < (s.toList.length : Int) := by exact_mod_cast hlen
      omega
    rw [if_neg hc3]
    have hc4 : ((s.toList.length : Int) - (dd : Int)).toNat = s.toList.length - dd := by
      omega
    rw [hc4]

theorem zoned_scale_insertion_witness :
    zonedScale "123" ((5 : Nat) : Int) =
      "0." ++ zeroString (5 - ("123" : String).toList.length) ++ "123" :=
  zoned_scale_insertion.2.2.2.1 "123" 5 (by decide) (by decide) (by decide)

theorem parenCount_digits (ds r : List Char) (hne : ds ≠ [])
    (hds : ∀ c ∈ ds, c.isDigit = true) :
    parenCount ('(' :: (ds ++ ')' :: r)) = some (some (natOfDigits ds), r) := by
  simp only [parenCount]
  rw [takeWhile_all_append ds ')' r hds (by decide),
      dropWhile_all_append ds ')' r hds (by decide)]
  rw [if_neg (by rw [List.isEmpty_iff]; exact hne)]
  rfl

set_option maxHeartbeats 1600000 in
/-- C10: a PIC token whose scale marker `V9` carries no parenthesized
count — any `[PSV]` prefix, a digit marker with or without a parenthesized
integer count, then a bare `V9` — is analyzed with `decimal_digits = 0`;
with scale 0 the zoned decoder returns the decoded digit string with no
decimal point inserted, and the packed decoder behaves exactly as the
integer (sentinel-scale) conversion; in particular `9V9` analyzes to
`(0, 0)` and `PS9(3)V9` to `(3, 0)`. -/
theorem v9_no_count_zero_scale :
    (∀ psv : List Char, (∀ c ∈ psv, isPSV c = true) →
       (get_digits_from_pic_type (String.mk (psv ++ '9' :: 'V' :: '9' :: []))).2 = 0)
    ∧ (∀ psv ds : List Char, (∀ c ∈ psv, isPSV c = true) → ds ≠ [] →
         (∀ c ∈ ds, c.isDigit = true) →
         (get_digits_from_pic_type
            (String.mk (psv ++ '9' :: '(' :: (ds ++ ')' :: 'V' :: '9' :: [])))).2 = 0)
    ∧ (∀ (codec : Nat → Option Char) (ebcdic_bytes : List Nat),
         convert_ebcdic_zoned_decimal codec ebcdic_bytes 0 =
           pythonStrip (convert_ebcdic_to_string codec ebcdic_bytes))
    ∧ (∀ comp3_bytes : List Nat,
         convert_comp3_bytes comp3_bytes 0 = convert_comp3_bytes comp3_bytes (-1))
    ∧ get_digits_from_pic_type "9V9" = (0, 0)
    ∧ get_digits_from_pic_type "PS9(3)V9" = (3, 0) := by
  refine ⟨?_, ?_, ?_, ?_, rfl, rfl⟩
  · intro psv hpsv
    have hm : picMatch (psv ++ '9' :: 'V' :: '9' :: []) = some (none, none) := by
      unfold picMatch
      rw [dropWhile_all_append psv '9' ('V' :: '9' :: []) hpsv (by decide)]
      rfl
    unfold get_digits_from_pic_type
    rw [show (String.mk (psv ++ '9' :: 'V' :: '9' :: [])).toList =
          psv ++ '9' :: 'V' :: '9' :: [] from rfl, hm]
  · intro psv ds hpsv hne hds
    have hm : picMatch (psv ++ '9' :: '(' :: (ds ++ ')' :: 'V' :: '9' :: [])) =
        some (some (natOfDigits ds), none) := by
      unfold picMatch
      rw [dropWhile_all_append psv '9' ('(' :: (ds ++ ')' :: 'V' :: '9' :: []))
            hpsv (by decide)]
      simp only [parenCount_digits ds ('V' :: '9' :: []) hne hds]
      rfl
    unfold get_digits_from_pic_type
    rw [show (String.mk (psv ++ '9' :: '(' :: (ds ++ ')' :: 'V' :: '9' :: []))).toList =
          psv ++ '9' :: '(' :: (ds ++ ')' :: 'V' :: '9' :: []) from rfl, hm]
  · intro codec ebcdic_bytes
    show zonedScale (pythonStrip (convert_ebcdic_to_string codec ebcdic_bytes)) 0 = _
    by_cases h : pythonStrip (convert_ebcdic_to_string codec ebcdic_bytes) = ""
    · simp [zonedScale, h]
    · simp [zonedScale, h]
  · intro comp3_bytes
    unfold convert_comp3_bytes
    repeat' split
    all_goals try (exfalso; omega)
    all_goals rfl

theorem v9_no_count_zero_scale_witness :
    (get_digits_from_pic_type (String.mk (['P', 'S'] ++ '9' :: 'V' :: '9' :: []))).2 = 0 :=
  v9_no_count_zero_scale.1 ['P', 'S'] (by decide)

theorem bool_ne_true {b : Bool} (h : b = false) : ¬(b = true) := by
  simp [h]

theorem listStartsWith_eq_append :
    ∀ {l pat : List Char}, listStartsWith l pat = true → ∃ r, l = pat ++ r := by
  intro l pat
  induction pat generalizing l with
  | nil => intro _; exact ⟨l, rfl⟩
  | cons b bs ih =>
    intro h
    match l with
    | [] => exact Bool.noConfusion h
    | a :: as =>
      have h2 : (a == b) = true ∧ listStartsWith as bs = true := by
        simpa [listStartsWith, Bool.and_eq_true] using h
      obtain ⟨r, hr⟩ := ih h2.2
      exact ⟨r, by rw [hr, eq_of_beq h2.1]; rfl⟩

theorem convert_comp3_bytes_none_any {field_data : List Nat} (dp dp' : Int)
    (h : convert_comp3_bytes field_data dp = none) :
    convert_comp3_bytes field_data dp' = none := by
  unfold convert_comp3_bytes at h ⊢
  dsimp only at h ⊢
  by_cases he : field_data.isEmpty = true
  · rw [if_pos he]
  · rw [if_neg he] at h ⊢
    cases hdl : comp3DigitList field_data with
    | none => rfl
    | some ds =>
      rw [hdl] at h
      dsimp only at h
      split at h
      · cases h
      · cases h

/-- Every type token accepted by the packed-decimal dispatch guard starts
with `P` or `S`, so none of the earlier dispatch guards of
`_convert_field` can fire on it. -/
theorem packed_guard_shape {s : String}
    (h : ((strStarts s "P9" || strStarts s "PS9" ||
           strStarts s "S9" || strStarts s "SP9")
          || (s == "PV9" || s == "PSV9")) = true) :
    (s == "X") = false ∧ (s == "9") = false ∧ (s == "N") = false ∧
    (strStarts s "9" && strContains s "V9") = false ∧
    (strStarts s "V9") = false := by
  have main : ∀ (c : Char) (r : List Char), s.toList = c :: r →
      (c == 'X') = false → (c == '9') = false → (c == 'N') = false →
      (c == 'V') = false →
      ((s == "X") = false ∧ (s == "9") = false ∧ (s == "N") = false ∧
       (strStarts s "9" && strContains s "V9") = false ∧
       (strStarts s "V9") = false) := by
    intro c r hr hX h9 hN hV
    refine ⟨?_, ?_, ?_, ?_, ?_⟩
    · apply beq_eq_false_iff_ne.2
      intro he
      rw [he] at hr
      have h2 : ('X' : Char) :: ([] : List Char) = c :: r := hr
      injection h2 with hh _
      rw [← hh] at hX
      exact absurd hX (by decide)
    · apply beq_eq_false_iff_ne.2
      intro he
      rw [he] at hr
      have h2 : ('9' : Char) :: ([] : List Char) = c :: r := hr
      injection h2 with hh _
      rw [← hh] at h9
      exact absurd h9 (by decide)
    · apply beq_eq_false_iff_ne.2
      intro he
      rw [he] at hr
      have h2 : ('N' : Char) :: ([] : List Char) = c :: r := hr
      injection h2 with hh _
      rw [← hh] at hN
      exact absurd hN (by decide)
    · have hs : strStarts s "9" = false := by
        have h0 : strStarts s "9" = listStartsWith s.toList ['9'] := rfl
        rw [h0, hr]
        show (c == '9' && listStartsWith r []) = false
        rw [h9]
        rfl
      rw [hs]
      rfl
    · have h0 : strStarts s "V9" = listStartsWith s.toList ['V', '9'] := rfl
      rw [h0, hr]
      show (c == 'V' && listStartsWith r ['9']) = false
      rw [hV]
      rfl
  have hshape : (∃ r : List Char, s.toList = 'P' :: r)
      ∨ (∃ r : List Char, s.toList = 'S' :: r) := by
    have htop := h
    rw [Bool.or_eq_true] at htop
    rcases htop with h1 | h1
    · simp only [Bool.or_eq_true] at h1
      rcases h1 with ((h2 | h2) | h2) | h2
      · obtain ⟨r, hr⟩ := listStartsWith_eq_append h2
        exact Or.inl ⟨'9' :: r, hr⟩
      · obtain ⟨r, hr⟩ := listStartsWith_eq_append h2
        exact Or.inl ⟨'S' :: '9' :: r, hr⟩
      · obtain ⟨r, hr⟩ := listStartsWith_eq_append h2
        exact Or.inr ⟨'9' :: r, hr⟩
      · obtain ⟨r, hr⟩ := listStartsWith_eq_append h2
        exact Or.inr ⟨'P' :: '9' :: r, hr⟩
    · rw [Bool.or_eq_true] at h1
      rcases h1 with h2 | h2
      · have he : s = "PV9" := eq_of_beq h2
        exact Or.inl ⟨['V', '9'], by rw [he]; rfl⟩
      · have he : s = "PSV9" := eq_of_beq h2
        exact Or.inl ⟨['S', 'V', '9'], by rw [he]; rfl⟩
  rcases hshape with ⟨r, hr⟩ | ⟨r, hr⟩
  · exact main 'P' r hr (by decide) (by decide) (by decide) (by decide)
  · exact main 'S' r hr (by decide) (by decide) (by decide) (by decide)

/-- C5: a field whose decode fails — `PV9`/`PSV9` with no numeric
attribute, an invalid packed digit nibble in any field of the packed
family (type token with prefix `P9`, `PS9`, `S9` or `SP9`, or exactly
`PV9`/`PSV9` with the numeric attribute present), or an unsupported type
token — yields an error-token string embedding the error kind and the
field bytes' hex, counts exactly one error, and the record's field loop
still produces one output slot per field with errors summed independently,
so the other fields of the record are unaffected. -/
theorem field_error_isolation :
    (∀ (codec : Nat → Option Char) (conversion_map : List (String × String))
       (fd : FieldDef) (field_data : List Nat),
       (fd.type = "PV9" ∨ fd.type = "PSV9") → fd.num_attribute = none →
       convertField codec conversion_map fd field_data =
         ("ERROR(PV9/PSV9_NO_ATTR):" ++ bytesHex field_data, 1))
    ∧ (∀ (codec : Nat → Option Char) (conversion_map : List (String × String))
         (fd : FieldDef) (field_data : List Nat),
         ((strStarts fd.type "P9" || strStarts fd.type "PS9" ||
           strStarts fd.type "S9" || strStarts fd.type "SP9")
          || (fd.type == "PV9" || fd.type == "PSV9")) = true →
         ((strStarts fd.type "PV9" || strStarts fd.type "PSV9") = true →
           fd.num_attribute ≠ none) →
         convert_comp3_bytes field_data (-1) = none →
         convertField codec conversion_map fd field_data =
           ("ERROR(COMP3_INVALID):" ++ bytesHex field_data, 1))
    ∧ (∀ (codec : Nat → Option Char) (conversion_map : List (String × String))
         (fd : FieldDef) (field_data : List Nat),
         (fd.type == "X") = false → (fd.type == "9") = false →
         (fd.type == "N") = false →
         (strStarts fd.type "9" && strContains fd.type "V9") = false →
         (strStarts fd.type "V9") = false →
         ((strStarts fd.type "P9" || strStarts fd.type "PS9" ||
           strStarts fd.type "S9" || strStarts fd.type "SP9")
          || (fd.type == "PV9" || fd.type == "PSV9")) = false →
         convertField codec conversion_map fd field_data =
           ("UNSUPPORTED_TYPE(" ++ fd.type ++ "):" ++ bytesHex field_data, 1))
    ∧ (∀ (cf : FieldDef → List Nat → String × Nat) (field_definitions : List FieldDef)
         (record_bytes : List Nat),
         convertRecord cf field_definitions record_bytes =
           (field_definitions.map
              (fun fd => (cf fd ((record_bytes.drop fd.offset).take fd.length)).1),
            (field_definitions.map
              (fun fd => (cf fd ((record_bytes.drop fd.offset).take fd.length)).2)).sum)) := by
  refine ⟨?_, ?_, ?_, convertRecord_eq⟩
  · intro codec conversion_map fd field_data htype hattr
    obtain ⟨nm, ty, na, ln, off⟩ := fd
    simp only at htype hattr
    subst hattr
    rcases htype with rfl | rfl
    · rfl
    · rfl
  · intro codec conversion_map fd field_data hdisp hna hinv
    obtain ⟨g1, g2, g3, g4, g5⟩ := packed_guard_shape hdisp
    simp only [convertField]
    rw [if_neg (bool_ne_true g1), if_neg (bool_ne_true g2), if_neg (bool_ne_true g3),
        if_neg (bool_ne_true g4), if_neg (bool_ne_true g5), if_pos hdisp]
    by_cases hv : (strContains fd.type "V9" || strStarts fd.type "PV9"
        || strStarts fd.type "PSV9") = true
    · rw [if_pos hv]
      by_cases hp : (strStarts fd.type "PV9" || strStarts fd.type "PSV9") = true
      · rw [if_pos hp]
        cases hattr : fd.num_attribute with
        | none => exact absurd hattr (hna hp)
        | some a =>
          show finishComp3 field_data a = _
          unfold finishComp3
          rw [convert_comp3_bytes_none_any (-1) a hinv]
      · rw [if_neg hp]
        unfold finishComp3
        rw [convert_comp3_bytes_none_any (-1)
              (((get_digits_from_pic_type fd.type).2 : Nat) : Int) hinv]
    · rw [if_neg hv]
      unfold finishComp3
      rw [hinv]
  · intro codec conversion_map fd field_data h1 h2 h3 h4 h5 h6
    simp only [convertField, h1, h2, h3, h4, h5, h6]
    simp

theorem field_error_isolation_witness :
    convertField digitCodec [] ⟨"F", "PV9", none, 1, 0⟩ [28] =
      ("ERROR(PV9/PSV9_NO_ATTR):" ++ bytesHex [28], 1)
    ∧ convertField digitCodec [] ⟨"G", "S9", none, 1, 0⟩ [171] =
      ("ERROR(COMP3_INVALID):" ++ bytesHex [171], 1)
    ∧ convertField digitCodec [] ⟨"G2", "PS9(3)V9(2)", none, 3, 0⟩ [171] =
      ("ERROR(COMP3_INVALID):" ++ bytesHex [171], 1)
    ∧ convertField digitCodec [] ⟨"G3", "PSV9", some 2, 2, 0⟩ [171] =
      ("ERROR(COMP3_INVALID):" ++ bytesHex [171], 1)
    ∧ convertField digitCodec [] ⟨"H", "Z", none, 1, 0⟩ [0] =
      ("UNSUPPORTED_TYPE(" ++ ("Z" : String) ++ "):" ++ bytesHex [0], 1) :=
  ⟨field_error_isolation.1 digitCodec [] ⟨"F", "PV9", none, 1, 0⟩ [28] (Or.inl rfl) rfl,
   field_error_isolation.2.1 digitCodec [] ⟨"G", "S9", none, 1, 0⟩ [171]
     (by decide) (by decide) rfl,
   field_error_isolation.2.1 digitCodec [] ⟨"G2", "PS9(3)V9(2)", none, 3, 0⟩ [171]
     (by decide) (by decide) rfl,
   field_error_isolation.2.1 digitCodec [] ⟨"G3", "PSV9", some 2, 2, 0⟩ [171]
     (by decide) (by decide) rfl,
   field_error_isolation.2.2.1 digitCodec [] ⟨"H", "Z", none, 1, 0⟩ [0]
     rfl rfl rfl rfl rfl rfl⟩

/-- C6: on a binary input of `k` complete records followed by a non-empty
truncated tail (`length = k * record_length + r` with `0 < r <
record_length`), the record loop decodes exactly the `k` leading records,
adds exactly one error for the truncation on top of the per-field errors of
those records, decodes nothing of the trailing `r` bytes, and the file
status reports an error; an empty read instead ends the file cleanly with
no error. -/
theorem truncated_record_handling
    (cf : FieldDef → List Nat → String × Nat) (field_definitions : List FieldDef)
    (record_length : Nat) (data : List Nat) (k r : Nat)
    (hlen : data.length = k * record_length + r) (hr0 : 0 < r)
    (hrrl : r < record_length) :
    processLoop cf field_definitions record_length data =
      ((leadingChunks record_length k data).map
         (fun c => (convertRecord cf field_definitions c).1),
       ((leadingChunks record_length k data).map
         (fun c => (convertRecord cf field_definitions c).2)).sum + 1)
    ∧ processStatus (processLoop cf field_definitions record_length data).2 =
        PROCESS_ERROR_GENERAL
    ∧ processLoop cf field_definitions record_length [] = ([], 0)
    ∧ processStatus 0 = PROCESS_SUCCESS := by
  have main : ∀ (k : Nat) (data : List Nat), data.length = k * record_length + r →
      processLoop cf field_definitions record_length data =
        ((leadingChunks record_length k data).map
           (fun c => (convertRecord cf field_definitions c).1),
         ((leadingChunks record_length k data).map
           (fun c => (convertRecord cf field_definitions c).2)).sum + 1) := by
    intro k
    induction k with
    | zero =>
      intro data hlen
      simp only [Nat.zero_mul, Nat.zero_add] at hlen
      rw [processLoop_short cf field_definitions record_length data
            (by intro h; subst h; simp at hlen; omega)
            (by omega) (by omega)]
      simp [leadingChunks]
    | succ n ih =>
      intro data hlen
      have hmul : (n + 1) * record_length = n * record_length + record_length :=
        Nat.succ_mul n record_length
      have hge : record_length ≤ data.length := by omega
      rw [processLoop_step cf field_definitions record_length data (by omega) hge]
      have hlen2 : (data.drop record_length).length = n * record_length + r := by
        rw [List.length_drop]
        omega
      rw [ih (data.drop record_length) hlen2]
      simp only [leadingChunks, List.map_cons, List.sum_cons, Prod.mk.injEq]
      exact ⟨by trivial, by omega⟩
  have hmain := main k data hlen
  refine ⟨hmain, ?_, ?_, rfl⟩
  · rw [hmain]
    simp [processStatus, PROCESS_ERROR_GENERAL]
  · exact processLoop_eof cf field_definitions record_length [] (by simp)

theorem truncated_record_handling_witness :
    processLoop (convertField digitCodec []) [⟨"A", "X", none, 2, 0⟩] 2 [241, 242, 243] =
      ((leadingChunks 2 1 [241, 242, 243]).map
         (fun c => (convertRecord (convertField digitCodec []) [⟨"A", "X", none, 2, 0⟩] c).1),
       ((leadingChunks 2 1 [241, 242, 243]).map
         (fun c => (convertRecord (convertField digitCodec []) [⟨"A", "X", none, 2, 0⟩] c).2)).sum
         + 1) :=
  (truncated_record_handling (convertField digitCodec []) [⟨"A", "X", none, 2, 0⟩]
    2 [241, 242, 243] 1 1 (by decide) (by decide) (by decide)).1

end CnvBin
